import Mathlib

/-!
# GDMLView: overlap detection, transparency assignment, overlap drawing

A shallow embedding of `DetectorConstruction::AddTransparency`,
`DetectorConstruction::DrawOverlap` and `DetectorConstruction::CheckOverlap`
of `src/gdmlview.cc`.

Modelling conventions.
* `G4double` values are rationals (exact arithmetic); `G4int` values are integers.
* A physical volume together with its logical volume is one tree node `PV`;
  its C++ address is the field `ptr`, so the test `daughter == volume` is
  `d.ptr = volume.ptr`.  The tree is the unfolded geometry: a volume of the
  geometry file that is placed several times gives several nodes.  In
  `DrawOverlap`, where it matters, `GetLogicalVolume p` is the address of the
  logical volume of the placement at address `p`; the placements of one reused
  volume have the same value.
* The Geant4 geometry kernel (solid queries, affine transforms, the random
  surface-point generator and `G4PVPlacement::CheckOverlaps`) is not part of the
  repository; it is a parameter `Kernel`.  The random generator and every other
  piece of library state is an explicit state `G` that is passed along.
* `volume->GetMotherLogical()` is the extra argument `mother` of the recursion.
* The text written to `G4cout` when `verbose` is set is not modelled.
* `trials` is an unbounded integer (no wrap-around of the C++ `int`).
-/

namespace GDMLView

/-- Result of `G4VSolid::Inside`. -/
inductive EInside where
  | kOutside
  | kSurface
  | kInside
  deriving DecidableEq, Repr

/-- Solids: the ones loaded from the geometry file (`prim`) and the ones built
by `CheckOverlap` with `new G4SubtractionSolid`, `new G4IntersectionSolid` and
`new G4ScaledSolid` (uniform scale factor). -/
inductive Solid (Prim T : Type) where
  | prim : Prim → Solid Prim T
  | G4SubtractionSolid : Solid Prim T → Solid Prim T → T → Solid Prim T
  | G4IntersectionSolid : Solid Prim T → Solid Prim T → T → Solid Prim T
  | G4ScaledSolid : Solid Prim T → ℚ → Solid Prim T
  deriving DecidableEq

/-- The arguments of a `G4Colour(red, green, blue, alpha)`. -/
structure G4Colour where
  red : ℚ
  green : ℚ
  blue : ℚ
  alpha : ℚ
  deriving DecidableEq

/-- A placement: physical volume and its logical volume. -/
inductive PV (Prim T : Type) where
  | mk (ptr : Nat) (solid : Solid Prim T) (tf : T) (vis : G4Colour)
      (daughters : List (PV Prim T)) : PV Prim T

namespace PV

variable {Prim T : Type}

def ptr : PV Prim T → Nat
  | mk p _ _ _ _ => p

def solid : PV Prim T → Solid Prim T
  | mk _ s _ _ _ => s

def tf : PV Prim T → T
  | mk _ _ t _ _ => t

def vis : PV Prim T → G4Colour
  | mk _ _ _ v _ => v

def daughters : PV Prim T → List (PV Prim T)
  | mk _ _ _ _ ds => ds

end PV

variable {Prim T Point G : Type}

mutual
/-- The method `DetectorConstruction::AddTransparency(volume, alpha)`: the volume with the
new display attributes, and the returned value. -/
def AddTransparency : PV Prim T → ℚ → PV Prim T × ℚ
  | .mk ptr solid tf _ ds, alpha =>
    let r := AddTransparencyLoop ds alpha 1
    (.mk ptr solid tf ⟨1, 1, 1, r.2⟩ r.1, r.2 * alpha)
/-- The `for` loop of `AddTransparency` over the daughters, with the running
minimum `a`. -/
def AddTransparencyLoop : List (PV Prim T) → ℚ → ℚ → List (PV Prim T) × ℚ
  | [], _, a => ([], a)
  | d :: rest, alpha, a =>
    let r := AddTransparency d alpha
    let r2 := AddTransparencyLoop rest alpha (min a r.2)
    (r.1 :: r2.1, r2.2)
end

mutual
/-- Height in edges of the subtree rooted at a placement. -/
def height : PV Prim T → Nat
  | .mk _ _ _ _ ds => heightList ds
/-- Largest `height d + 1` over the daughters `d`, and `0` when there is none. -/
def heightList : List (PV Prim T) → Nat
  | [] => 0
  | d :: rest => max (height d + 1) (heightList rest)
end

mutual
/-- All placements of a tree in depth-first pre-order. -/
def nodes : PV Prim T → List (PV Prim T)
  | .mk ptr solid tf vis ds => .mk ptr solid tf vis ds :: nodesList ds
/-- The placements of a list of trees, tree after tree. -/
def nodesList : List (PV Prim T) → List (PV Prim T)
  | [] => []
  | d :: rest => nodes d ++ nodesList rest
end

mutual
/-- The tree in which every placement has the white colour with opacity
`alpha ^ h`, where `h` is the height of the placement (specification side of
`AddTransparency`). -/
def paintByHeight (alpha : ℚ) : PV Prim T → PV Prim T
  | .mk ptr solid tf _ ds =>
    .mk ptr solid tf ⟨1, 1, 1, alpha ^ heightList ds⟩ (paintByHeightList alpha ds)
/-- The function `paintByHeight` on every tree of a list. -/
def paintByHeightList (alpha : ℚ) : List (PV Prim T) → List (PV Prim T)
  | [] => []
  | d :: rest => paintByHeight alpha d :: paintByHeightList alpha rest
end

/-- The Geant4 geometry kernel used by `CheckOverlap` and `DrawOverlap`.
`GetPointOnSurface` draws a random point and `CheckOverlaps` is
`G4PVPlacement::CheckOverlaps`, which samples on its own; both read and update
the library state `G`.  `mul a b` is the product `a * b` of affine transforms
and `identity` the placement with no rotation and no translation. -/
structure Kernel (Prim T Point G : Type) where
  Inside : Solid Prim T → Point → EInside
  DistanceToIn : Solid Prim T → Point → ℚ
  DistanceToOut : Solid Prim T → Point → ℚ
  GetPointOnSurface : Solid Prim T → G → Point × G
  TransformPoint : T → Point → Point
  Inverse : T → T
  mul : T → T → T
  identity : T
  CheckOverlaps : Option (PV Prim T) → PV Prim T → Int → ℚ → Bool → Int → G → Bool × G

/-- An entry of `fOverlaps`: the address of the placement and the overlap solid. -/
abbrev OverlapRecord (Prim T : Type) := Nat × Solid Prim T

/-- The mutable state: the member `fOverlaps` and the library state. -/
structure State (Prim T G : Type) where
  fOverlaps : List (OverlapRecord Prim T)
  lib : G

/-- The record pushed by the mother test (lines 134-140). -/
def motherRecord (K : Kernel Prim T Point G) (volume mother : PV Prim T) :
    OverlapRecord Prim T :=
  (volume.ptr,
    .G4ScaledSolid (.G4SubtractionSolid volume.solid mother.solid (K.Inverse volume.tf))
      (1001 / 1000))

/-- The record pushed by the sister test (lines 157-164). -/
def sisterRecord (K : Kernel Prim T Point G) (volume daughter : PV Prim T) :
    OverlapRecord Prim T :=
  (volume.ptr,
    .G4ScaledSolid
      (.G4IntersectionSolid volume.solid daughter.solid
        (K.mul daughter.tf (K.Inverse volume.tf)))
      (1001 / 1000))

/-- The mother test of one sample `mp` (lines 131-146): the new `trials`, the new
`fOverlaps`, and whether the `break` of line 144 was executed. -/
def motherTest (K : Kernel Prim T Point G) (volume mother : PV Prim T) (tol : ℚ)
    (errMax : Int) (mp : Point) (trials : Int) (ov : List (OverlapRecord Prim T)) :
    Int × List (OverlapRecord Prim T) × Bool :=
  if K.Inside mother.solid mp = EInside.kOutside then
    let distin := K.DistanceToIn mother.solid mp
    if distin > tol then
      (trials + 1, ov ++ [motherRecord K volume mother], decide (trials + 1 > errMax))
    else (trials, ov, false)
  else (trials, ov, false)

/-- The loop over the daughters of the mother for one sample `mp`
(lines 148-171), from the current daughter on. -/
def sisterLoop (K : Kernel Prim T Point G) (volume : PV Prim T) (tol : ℚ) (errMax : Int)
    (mp : Point) :
    List (PV Prim T) → Int × List (OverlapRecord Prim T) → Int × List (OverlapRecord Prim T)
  | [], st => st
  | daughter :: rest, (trials, ov) =>
    if daughter.ptr = volume.ptr then sisterLoop K volume tol errMax mp rest (trials, ov)
    else
      let md := K.TransformPoint (K.Inverse daughter.tf) mp
      if K.Inside daughter.solid md = EInside.kInside then
        let distout := K.DistanceToOut daughter.solid md
        if distout > tol then
          if trials + 1 > errMax then (trials + 1, ov ++ [sisterRecord K volume daughter])
          else sisterLoop K volume tol errMax mp rest
            (trials + 1, ov ++ [sisterRecord K volume daughter])
        else sisterLoop K volume tol errMax mp rest (trials, ov)
      else sisterLoop K volume tol errMax mp rest (trials, ov)

/-- The loop `for (ires = 0; ires < res; ires++)` (lines 128-172); the first
argument is the number `res - ires` of iterations still to run. -/
def sampleLoop (K : Kernel Prim T Point G) (volume mother : PV Prim T) (tol : ℚ)
    (errMax : Int) : Nat → Int × State Prim T G → Int × State Prim T G
  | 0, st => st
  | n + 1, (trials, s) =>
    let r := K.GetPointOnSurface volume.solid s.lib
    let mp := K.TransformPoint volume.tf r.1
    let m := motherTest K volume mother tol errMax mp trials s.fOverlaps
    if m.2.2 then (m.1, ⟨m.2.1, r.2⟩)
    else
      let st := sisterLoop K volume tol errMax mp mother.daughters (m.1, m.2.1)
      sampleLoop K volume mother tol errMax n (st.1, ⟨st.2, r.2⟩)

/-- The part of `CheckOverlap` that concerns `volume` itself (lines 117-173):
the result of the library check and the state after the sampling loop. -/
def CheckOverlapNode (K : Kernel Prim T Point G) (res : Int) (tol : ℚ) (verbose : Bool)
    (errMax : Int) (mother : Option (PV Prim T)) (volume : PV Prim T) (s : State Prim T G) :
    Bool × State Prim T G :=
  let c := K.CheckOverlaps mother volume res tol verbose errMax s.lib
  match mother with
  | some m => (c.1, (sampleLoop K volume m tol errMax res.toNat (0, ⟨s.fOverlaps, c.2⟩)).2)
  | none => (c.1, ⟨s.fOverlaps, c.2⟩)

mutual
/-- The method `DetectorConstruction::CheckOverlap(volume, res, tol, verbose, errMax)`;
`mother` is `volume->GetMotherLogical()`.  The daughters find the unchanged
`volume` as their mother: the loop reads only its solid and the address, solid
and transform of its daughters. -/
def CheckOverlap (K : Kernel Prim T Point G) (res : Int) (tol : ℚ) (verbose : Bool)
    (errMax : Int) (mother : Option (PV Prim T)) :
    PV Prim T → State Prim T G → PV Prim T × State Prim T G
  | .mk ptr solid tf vis ds, s =>
    let c := CheckOverlapNode K res tol verbose errMax mother (.mk ptr solid tf vis ds) s
    let r := CheckOverlapLoop K res tol verbose errMax (.mk ptr solid tf vis ds) ds c.2
    (.mk ptr solid tf (if c.1 then ⟨1, 0, 0, 1 / 2⟩ else vis) r.1, r.2)
/-- The final loop of `CheckOverlap` over the daughters (lines 175-177). -/
def CheckOverlapLoop (K : Kernel Prim T Point G) (res : Int) (tol : ℚ) (verbose : Bool)
    (errMax : Int) (mother : PV Prim T) :
    List (PV Prim T) → State Prim T G → List (PV Prim T) × State Prim T G
  | [], s => ([], s)
  | d :: rest, s =>
    let r := CheckOverlap K res tol verbose errMax (some mother) d s
    let r2 := CheckOverlapLoop K res tol verbose errMax mother rest r.2
    (r.1 :: r2.1, r2.2)
end

mutual
/-- The call `vol->GetLogicalVolume()->AddDaughter(d)` made by the constructor
`G4PVPlacement(..., pMother = vol, ...)`: the new placement `d` is pushed at the
end of the daughters of the logical volume of `vol`, so it appears under every
placement that has this logical volume. -/
def AddDaughter (GetLogicalVolume : Nat → Nat) (vol : Nat) (d : PV Prim T) :
    PV Prim T → PV Prim T
  | .mk ptr solid tf vis ds =>
    .mk ptr solid tf vis
      (if GetLogicalVolume ptr = GetLogicalVolume vol then
        AddDaughterList GetLogicalVolume vol d ds ++ [d]
      else AddDaughterList GetLogicalVolume vol d ds)
/-- The function `AddDaughter` below every tree of a list. -/
def AddDaughterList (GetLogicalVolume : Nat → Nat) (vol : Nat) (d : PV Prim T) :
    List (PV Prim T) → List (PV Prim T)
  | [] => []
  | x :: rest =>
    AddDaughter GetLogicalVolume vol d x :: AddDaughterList GetLogicalVolume vol d rest
end

/-- The placement `overlap_phys` built in `DrawOverlap` (lines 108-110) at
address `p` for the solid `sol`: no rotation, no translation, logical volume
with the colour `G4Colour::Yellow()` and no daughters. -/
def overlapPhys (K : Kernel Prim T Point G) (p : Nat) (sol : Solid Prim T) : PV Prim T :=
  .mk p sol K.identity ⟨1, 1, 0, 1⟩ []

/-- The loop of `DrawOverlap` from the `k`-th entry of `fOverlaps` on;
`newPtr k` is the address returned by the `k`-th `new G4PVPlacement`. -/
def DrawOverlapLoop (K : Kernel Prim T Point G) (GetLogicalVolume newPtr : Nat → Nat) :
    List (OverlapRecord Prim T) → Nat → PV Prim T → PV Prim T
  | [], _, world => world
  | (vol, sol) :: rest, k, world =>
    DrawOverlapLoop K GetLogicalVolume newPtr rest (k + 1)
      (AddDaughter GetLogicalVolume vol (overlapPhys K (newPtr k) sol) world)

/-- The method `DetectorConstruction::DrawOverlap()` on the tree `world`. -/
def DrawOverlap (K : Kernel Prim T Point G) (GetLogicalVolume newPtr : Nat → Nat)
    (ws : PV Prim T × State Prim T G) : PV Prim T × State Prim T G :=
  (DrawOverlapLoop K GetLogicalVolume newPtr ws.2.fOverlaps 0 ws.1, ws.2)

/-! ### Specification side -/

/-- Library state after `i` calls of `GetPointOnSurface` on `solid`. -/
def libAfter (K : Kernel Prim T Point G) (solid : Solid Prim T) : Nat → G → G
  | 0, g => g
  | i + 1, g => libAfter K solid i (K.GetPointOnSurface solid g).2

/-- The `i`-th boundary sample of `volume` drawn from library state `g`, mapped
to the frame of the mother (`mp` in the source). -/
def samplePoint (K : Kernel Prim T Point G) (volume : PV Prim T) (g : G) (i : Nat) : Point :=
  K.TransformPoint volume.tf (K.GetPointOnSurface volume.solid (libAfter K volume.solid i g)).1

/-- The sample `mp` lies outside the mother solid by more than `tol`. -/
def motherOverlap (K : Kernel Prim T Point G) (mother : PV Prim T) (tol : ℚ) (mp : Point) :
    Prop :=
  K.Inside mother.solid mp = EInside.kOutside ∧ K.DistanceToIn mother.solid mp > tol

/-- The sample `mp`, mapped to the frame of `d`, lies inside the solid of `d`
by more than `tol`. -/
def sisterOverlap (K : Kernel Prim T Point G) (tol : ℚ) (mp : Point) (d : PV Prim T) : Prop :=
  K.Inside d.solid (K.TransformPoint (K.Inverse d.tf) mp) = EInside.kInside ∧
    K.DistanceToOut d.solid (K.TransformPoint (K.Inverse d.tf) mp) > tol

/-- The sample `mp` of `volume` is an overlap: with the mother or with another
daughter of the mother. -/
def isOverlap (K : Kernel Prim T Point G) (volume mother : PV Prim T) (tol : ℚ) (mp : Point) :
    Prop :=
  motherOverlap K mother tol mp ∨
    ∃ d ∈ mother.daughters, d.ptr ≠ volume.ptr ∧ sisterOverlap K tol mp d

/-- The sample `mp` of `volume` is harmless: the mother does not classify it as
outside or its distance is at most `tol`, and every other daughter does not
classify it as inside or its distance is at most `tol`. -/
def harmless (K : Kernel Prim T Point G) (volume mother : PV Prim T) (tol : ℚ) (mp : Point) :
    Prop :=
  (K.Inside mother.solid mp ≠ EInside.kOutside ∨ K.DistanceToIn mother.solid mp ≤ tol) ∧
    ∀ d ∈ mother.daughters, d.ptr ≠ volume.ptr →
      (K.Inside d.solid (K.TransformPoint (K.Inverse d.tf) mp) ≠ EInside.kInside ∨
        K.DistanceToOut d.solid (K.TransformPoint (K.Inverse d.tf) mp) ≤ tol)

/-- The sample `mp` of `volume` is classified as inside by no other daughter of
the mother. -/
def insideNoSister (K : Kernel Prim T Point G) (volume mother : PV Prim T) (mp : Point) : Prop :=
  ∀ d ∈ mother.daughters, d.ptr ≠ volume.ptr →
    K.Inside d.solid (K.TransformPoint (K.Inverse d.tf) mp) ≠ EInside.kInside

/-- The `i`-th sample of the sampling loop of the pass over `volume` that starts
in state `s`: the loop draws after the library check has run. -/
def nodeSample (K : Kernel Prim T Point G) (res : Int) (tol : ℚ) (verbose : Bool)
    (errMax : Int) (mother volume : PV Prim T) (s : State Prim T G) (i : Nat) : Point :=
  samplePoint K volume (K.CheckOverlaps (some mother) volume res tol verbose errMax s.lib).2 i

/-- The records that one pass over `volume` appends to the registry. -/
def appended (K : Kernel Prim T Point G) (res : Int) (tol : ℚ) (verbose : Bool)
    (errMax : Int) (mother : Option (PV Prim T)) (volume : PV Prim T) (s : State Prim T G) :
    List (OverlapRecord Prim T) :=
  (CheckOverlapNode K res tol verbose errMax mother volume s).2.fOverlaps.drop s.fOverlaps.length

/-- A record of the mother test: a scaled subtraction solid. -/
def isMotherRecord : OverlapRecord Prim T → Bool
  | (_, .G4ScaledSolid (.G4SubtractionSolid _ _ _) _) => true
  | _ => false

/-- The loop that draws a sample and runs the sister test on it, `n` times,
with no mother test and no early exit. -/
def sisterOnlyLoop (K : Kernel Prim T Point G) (volume mother : PV Prim T) (tol : ℚ)
    (errMax : Int) : Nat → Int × State Prim T G → Int × State Prim T G
  | 0, st => st
  | n + 1, (trials, s) =>
    let r := K.GetPointOnSurface volume.solid s.lib
    let st := sisterLoop K volume tol errMax (K.TransformPoint volume.tf r.1) mother.daughters
      (trials, s.fOverlaps)
    sisterOnlyLoop K volume mother tol errMax n (st.1, ⟨st.2, r.2⟩)

/-- The number of samples that the sampling loop draws: the iterations it
starts, the one that ends with the `break` of line 144 included. -/
def samplesDrawn (K : Kernel Prim T Point G) (volume mother : PV Prim T) (tol : ℚ)
    (errMax : Int) : Nat → Int × State Prim T G → Nat
  | 0, _ => 0
  | n + 1, (trials, s) =>
    let r := K.GetPointOnSurface volume.solid s.lib
    let mp := K.TransformPoint volume.tf r.1
    let m := motherTest K volume mother tol errMax mp trials s.fOverlaps
    if m.2.2 then 1
    else
      let st := sisterLoop K volume tol errMax mp mother.daughters (m.1, m.2.1)
      samplesDrawn K volume mother tol errMax n (st.1, ⟨st.2, r.2⟩) + 1

/-- The number of samples drawn by the pass over `volume` that starts in `s`. -/
def nodeSamplesDrawn (K : Kernel Prim T Point G) (res : Int) (tol : ℚ) (verbose : Bool)
    (errMax : Int) (mother volume : PV Prim T) (s : State Prim T G) : Nat :=
  samplesDrawn K volume mother tol errMax res.toNat
    (0, ⟨s.fOverlaps, (K.CheckOverlaps (some mother) volume res tol verbose errMax s.lib).2⟩)

mutual
/-- The calls of `CheckOverlap` in depth-first pre-order, each as the pair of
the mother and the placement. -/
def visits (mother : Option (PV Prim T)) : PV Prim T → List (Option (PV Prim T) × PV Prim T)
  | .mk ptr solid tf vis ds =>
    (mother, .mk ptr solid tf vis ds) :: visitsList (.mk ptr solid tf vis ds) ds
/-- The calls below the daughters of `mother`, daughter after daughter. -/
def visitsList (mother : PV Prim T) :
    List (PV Prim T) → List (Option (PV Prim T) × PV Prim T)
  | [] => []
  | d :: rest => visits (some mother) d ++ visitsList mother rest
end

/-- The state after the pass over the placement `mv.2` with mother `mv.1`. -/
def passState (K : Kernel Prim T Point G) (res : Int) (tol : ℚ) (verbose : Bool)
    (errMax : Int) (s : State Prim T G) (mv : Option (PV Prim T) × PV Prim T) :
    State Prim T G :=
  (CheckOverlapNode K res tol verbose errMax mv.1 mv.2 s).2

/-- The per-node record lists of a list of calls, concatenated; each call
starts in the state the call before it has left. -/
def recordsOfVisits (K : Kernel Prim T Point G) (res : Int) (tol : ℚ) (verbose : Bool)
    (errMax : Int) :
    List (Option (PV Prim T) × PV Prim T) → State Prim T G → List (OverlapRecord Prim T)
  | [], _ => []
  | mv :: rest, s =>
    appended K res tol verbose errMax mv.1 mv.2 s ++
      recordsOfVisits K res tol verbose errMax rest (passState K res tol verbose errMax s mv)

mutual
/-- The tree in which every placement keeps its daughters, each treated the
same way, followed by the new daughters of `hl` filed under an address with the
logical volume of the placement (specification side of `DrawOverlap`). -/
def withHighlights (GetLogicalVolume : Nat → Nat) (hl : List (Nat × PV Prim T)) :
    PV Prim T → PV Prim T
  | .mk ptr solid tf vis ds =>
    .mk ptr solid tf vis
      (withHighlightsList GetLogicalVolume hl ds ++
        (hl.filter (fun h => decide (GetLogicalVolume h.1 = GetLogicalVolume ptr))).map
          Prod.snd)
/-- The function `withHighlights` on every tree of a list. -/
def withHighlightsList (GetLogicalVolume : Nat → Nat) (hl : List (Nat × PV Prim T)) :
    List (PV Prim T) → List (PV Prim T)
  | [] => []
  | x :: rest =>
    withHighlights GetLogicalVolume hl x :: withHighlightsList GetLogicalVolume hl rest
end

/-- The new daughters that `DrawOverlap` owes to the registry `reg`, one for
every record and in registry order, each with the address of its mother: the
record with index `i` gives the placement at address `newPtr i` with the solid
of the record, no rotation and no translation, and the yellow colour. -/
def highlightsFrom (K : Kernel Prim T Point G) (newPtr : Nat → Nat)
    (reg : List (OverlapRecord Prim T)) (k : Nat) : List (Nat × PV Prim T) :=
  (reg.enumFrom k).map (fun ir => (ir.2.1, overlapPhys K (newPtr ir.1) ir.2.2))

/-! ### A kernel on the line

Solids are closed intervals `[lo, hi]` of the integer line, a transform is a
translation, and the generator returns the two end points of the interval in
turn, the upper one first. -/

/-- The query `Inside` for an interval. -/
def lineInside : Solid (Int × Int) Int → Int → EInside
  | .prim (lo, hi), p =>
    if lo < p ∧ p < hi then EInside.kInside
    else if p = lo ∨ p = hi then EInside.kSurface
    else EInside.kOutside
  | _, _ => EInside.kOutside

/-- The query `DistanceToIn` for an interval. -/
def lineDistanceToIn : Solid (Int × Int) Int → Int → ℚ
  | .prim (lo, hi), p =>
    if p < lo then ((lo - p : Int) : ℚ) else if hi < p then ((p - hi : Int) : ℚ) else 0
  | _, _ => 0

/-- The query `DistanceToOut` for an interval. -/
def lineDistanceToOut : Solid (Int × Int) Int → Int → ℚ
  | .prim (lo, hi), p => if lo < p ∧ p < hi then ((min (p - lo) (hi - p) : Int) : ℚ) else 0
  | _, _ => 0

/-- The generator `GetPointOnSurface` for an interval; the state counts the calls. -/
def lineGetPointOnSurface : Solid (Int × Int) Int → Nat → Int × Nat
  | .prim (lo, hi), g => (if g % 2 = 0 then hi else lo, g + 1)
  | _, g => (0, g + 1)

/-- The library check on the line for a placement with mother `m`: it draws up
to `n` samples of its own and reports the first one that lies outside the
mother, or inside another daughter, by more than `tol`. -/
def lineCheckLoop (m volume : PV (Int × Int) Int) (tol : ℚ) : Nat → Nat → Bool × Nat
  | 0, g => (false, g)
  | n + 1, g =>
    let r := lineGetPointOnSurface volume.solid g
    let mp := r.1 + volume.tf
    if (lineInside m.solid mp = EInside.kOutside ∧ lineDistanceToIn m.solid mp > tol) ∨
        m.daughters.any (fun d => decide (d.ptr ≠ volume.ptr ∧
          lineInside d.solid (mp + -d.tf) = EInside.kInside ∧
          lineDistanceToOut d.solid (mp + -d.tf) > tol)) then
      (true, r.2)
    else lineCheckLoop m volume tol n r.2

/-- The library check `CheckOverlaps` on the line; without a mother it reports `false`
at once. -/
def lineCheckOverlaps (mother : Option (PV (Int × Int) Int)) (volume : PV (Int × Int) Int)
    (res : Int) (tol : ℚ) (g : Nat) : Bool × Nat :=
  match mother with
  | none => (false, g)
  | some m => lineCheckLoop m volume tol res.toNat g

/-- The kernel on the line. -/
def lineKernel : Kernel (Int × Int) Int Int Nat where
  Inside := lineInside
  DistanceToIn := lineDistanceToIn
  DistanceToOut := lineDistanceToOut
  GetPointOnSurface := lineGetPointOnSurface
  TransformPoint := fun t p => p + t
  Inverse := fun t => -t
  mul := fun a b => a + b
  identity := 0
  CheckOverlaps := fun mother volume res tol _ _ g => lineCheckOverlaps mother volume res tol g

/-- An interval placed at translation `t`, white and opaque, without daughters. -/
def lineLeaf (ptr : Nat) (lo hi t : Int) : PV (Int × Int) Int :=
  .mk ptr (.prim (lo, hi)) t ⟨1, 1, 1, 1⟩ []

/-- A mother `[-5, 5]` at address `0` with the given daughters. -/
def lineMother (ds : List (PV (Int × Int) Int)) : PV (Int × Int) Int :=
  .mk 0 (.prim (-5, 5)) 0 ⟨1, 1, 1, 1⟩ ds

/-- The interval `[3, 5]`: inside the mother `[-5, 5]`, touching it at `5`. -/
def touching : PV (Int × Int) Int := lineLeaf 1 3 5 0

/-- The interval `[-6, 6]`: both end points lie outside the mother by `1`. -/
def protruding : PV (Int × Int) Int := lineLeaf 1 (-6) 6 0

/-- The interval `[0, 6]`: only the upper end point lies outside the mother. -/
def halfOut : PV (Int × Int) Int := lineLeaf 1 0 6 0

/-- The interval `[0, 2]` placed at `0`. -/
def cubeA : PV (Int × Int) Int := lineLeaf 1 0 2 0

/-- The interval `[0, 2]` placed at `1`: it shares `[1, 2]` with `cubeA`. -/
def cubeB : PV (Int × Int) Int := lineLeaf 2 0 2 1

/-- A tree of height two: a world with a leaf and a daughter that has a leaf. -/
def smallWorld : PV (Int × Int) Int :=
  lineMother [lineLeaf 1 0 1 0, .mk 2 (.prim (2, 4)) 0 ⟨1, 1, 1, 1⟩ [lineLeaf 3 0 1 2]]

/-- The logical volumes when the placements at the addresses `1` and `2` are two
placements of one volume; every other placement has a logical volume of its
own. -/
def sharedLogical (p : Nat) : Nat := if p = 2 then 1 else p

/-- A registry with three records: two name the address `1`, one the
address `2`. -/
def smallRegistry : List (OverlapRecord (Int × Int) Int) :=
  [(1, .prim (7, 8)), (2, .prim (8, 9)), (1, .prim (9, 10))]

/-! ## Transparency assignment -/

theorem pow_max_eq_min (alpha : ℚ) (h0 : 0 ≤ alpha) (h1 : alpha ≤ 1) (m n : Nat) :
    alpha ^ max m n = min (alpha ^ m) (alpha ^ n) := by
  rcases le_total m n with h | h
  · rw [max_eq_right h, min_eq_right (pow_le_pow_of_le_one h0 h1 h)]
  · rw [max_eq_left h, min_eq_left (pow_le_pow_of_le_one h0 h1 h)]

mutual
theorem AddTransparency_eq (alpha : ℚ) (h0 : 0 ≤ alpha) (h1 : alpha ≤ 1) :
    ∀ t : PV Prim T, AddTransparency t alpha = (paintByHeight alpha t, alpha ^ (height t + 1))
  | .mk ptr solid tf vis ds => by
    have h := AddTransparencyLoop_eq alpha h0 h1 ds 1 le_rfl
    simp only [AddTransparency, paintByHeight, height, h]
    rw [min_eq_right (pow_le_one₀ h0 h1), pow_succ]
theorem AddTransparencyLoop_eq (alpha : ℚ) (h0 : 0 ≤ alpha) (h1 : alpha ≤ 1) :
    ∀ (ds : List (PV Prim T)) (a : ℚ), a ≤ 1 →
      AddTransparencyLoop ds alpha a = (paintByHeightList alpha ds, min a (alpha ^ heightList ds))
  | [], a, ha => by
    simp [AddTransparencyLoop, paintByHeightList, heightList, ha]
  | d :: rest, a, ha => by
    have hd := AddTransparency_eq alpha h0 h1 d
    have hr := AddTransparencyLoop_eq alpha h0 h1 rest (min a (alpha ^ (height d + 1)))
      (le_trans (min_le_left _ _) ha)
    simp only [AddTransparencyLoop, paintByHeightList, heightList, hd, hr]
    rw [pow_max_eq_min alpha h0 h1, min_assoc]
end

mutual
theorem height_paintByHeight (alpha : ℚ) :
    ∀ t : PV Prim T, height (paintByHeight alpha t) = height t
  | .mk ptr solid tf vis ds => by
    simp only [paintByHeight, height, heightList_paintByHeightList alpha ds]
theorem heightList_paintByHeightList (alpha : ℚ) :
    ∀ ds : List (PV Prim T), heightList (paintByHeightList alpha ds) = heightList ds
  | [] => by simp [paintByHeightList]
  | d :: rest => by
    simp only [paintByHeightList, heightList, height_paintByHeight alpha d,
      heightList_paintByHeightList alpha rest]
end

mutual
theorem vis_of_mem_nodes_paintByHeight (alpha : ℚ) :
    ∀ (t n : PV Prim T), n ∈ nodes (paintByHeight alpha t) →
      n.vis = ⟨1, 1, 1, alpha ^ height n⟩
  | .mk ptr solid tf vis ds, n, hn => by
    simp only [paintByHeight, nodes, List.mem_cons] at hn
    rcases hn with rfl | hn
    · simp [PV.vis, height, heightList_paintByHeightList]
    · exact vis_of_mem_nodesList_paintByHeightList alpha ds n hn
theorem vis_of_mem_nodesList_paintByHeightList (alpha : ℚ) :
    ∀ (ds : List (PV Prim T)) (n : PV Prim T), n ∈ nodesList (paintByHeightList alpha ds) →
      n.vis = ⟨1, 1, 1, alpha ^ height n⟩
  | [], n, hn => by simp [paintByHeightList, nodesList] at hn
  | d :: rest, n, hn => by
    simp only [paintByHeightList, nodesList, List.mem_append] at hn
    rcases hn with hn | hn
    · exact vis_of_mem_nodes_paintByHeight alpha d n hn
    · exact vis_of_mem_nodesList_paintByHeightList alpha rest n hn
end

/-! ## The sampling loop of `CheckOverlap` -/

section loops

variable (K : Kernel Prim T Point G) (volume mother : PV Prim T) (tol : ℚ) (errMax : Int)

theorem sisterLoop_cons_self (mp : Point) (d : PV Prim T) (rest : List (PV Prim T))
    (st : Int × List (OverlapRecord Prim T)) (hp : d.ptr = volume.ptr) :
    sisterLoop K volume tol errMax mp (d :: rest) st =
      sisterLoop K volume tol errMax mp rest st := by
  obtain ⟨t, ov⟩ := st
  simp [sisterLoop, hp]

theorem sisterLoop_cons_miss (mp : Point) (d : PV Prim T) (rest : List (PV Prim T))
    (st : Int × List (OverlapRecord Prim T)) (ho : ¬ sisterOverlap K tol mp d) :
    sisterLoop K volume tol errMax mp (d :: rest) st =
      sisterLoop K volume tol errMax mp rest st := by
  obtain ⟨t, ov⟩ := st
  unfold sisterOverlap at ho
  by_cases hp : d.ptr = volume.ptr
  · simp [sisterLoop, hp]
  · by_cases hi : K.Inside d.solid (K.TransformPoint (K.Inverse d.tf) mp) = EInside.kInside
    · have hd : ¬ K.DistanceToOut d.solid (K.TransformPoint (K.Inverse d.tf) mp) > tol :=
        fun h => ho ⟨hi, h⟩
      simp only [sisterLoop, hp, hi, hd, if_true, if_false]
    · simp only [sisterLoop, hp, hi, if_false]

theorem sisterLoop_cons_hit_break (mp : Point) (d : PV Prim T) (rest : List (PV Prim T))
    (t : Int) (ov : List (OverlapRecord Prim T)) (hp : d.ptr ≠ volume.ptr)
    (ho : sisterOverlap K tol mp d) (hb : t + 1 > errMax) :
    sisterLoop K volume tol errMax mp (d :: rest) (t, ov) =
      (t + 1, ov ++ [sisterRecord K volume d]) := by
  simp only [sisterLoop, hp, ho.1, ho.2, hb, if_true, if_false]

theorem sisterLoop_cons_hit_more (mp : Point) (d : PV Prim T) (rest : List (PV Prim T))
    (t : Int) (ov : List (OverlapRecord Prim T)) (hp : d.ptr ≠ volume.ptr)
    (ho : sisterOverlap K tol mp d) (hb : ¬ t + 1 > errMax) :
    sisterLoop K volume tol errMax mp (d :: rest) (t, ov) =
      sisterLoop K volume tol errMax mp rest (t + 1, ov ++ [sisterRecord K volume d]) := by
  simp only [sisterLoop, hp, ho.1, ho.2, hb, if_true, if_false]

theorem isMotherRecord_sisterRecord (d : PV Prim T) :
    isMotherRecord (sisterRecord K volume d) = false := rfl

theorem isMotherRecord_motherRecord :
    isMotherRecord (motherRecord K volume mother) = true := rfl

/-- What one run of the sister loop does: it appends a list `new` of records of
`volume`, none of them a mother record, counts them in `trials`, and `new` is
empty exactly when no other daughter is overlapped. -/
theorem sisterLoop_spec (mp : Point) :
    ∀ (ds : List (PV Prim T)) (t : Int) (ov : List (OverlapRecord Prim T)),
      ∃ new : List (OverlapRecord Prim T),
        sisterLoop K volume tol errMax mp ds (t, ov) = (t + new.length, ov ++ new) ∧
        (∀ r ∈ new, r.1 = volume.ptr ∧ isMotherRecord r = false) ∧
        (new = [] ↔ ∀ d ∈ ds, d.ptr ≠ volume.ptr → ¬ sisterOverlap K tol mp d)
  | [], t, ov => ⟨[], by simp [sisterLoop]⟩
  | d :: rest, t, ov => by
    by_cases hp : d.ptr = volume.ptr
    · obtain ⟨new, h1, h2, h3⟩ := sisterLoop_spec mp rest t ov
      refine ⟨new, ?_, h2, ?_⟩
      · rw [sisterLoop_cons_self K volume tol errMax mp d rest _ hp, h1]
      · simp [h3, hp]
    · by_cases ho : sisterOverlap K tol mp d
      · by_cases hb : t + 1 > errMax
        · refine ⟨[sisterRecord K volume d], ?_, ?_, ?_⟩
          · rw [sisterLoop_cons_hit_break K volume tol errMax mp d rest t ov hp ho hb]
            simp
          · intro r hr
            rw [List.mem_singleton] at hr
            subst hr
            exact ⟨rfl, rfl⟩
          · simp only [List.cons_ne_nil, false_iff, not_forall]
            exact ⟨d, List.mem_cons_self _ _, hp, fun h => h ho⟩
        · obtain ⟨new, h1, h2, h3⟩ :=
            sisterLoop_spec mp rest (t + 1) (ov ++ [sisterRecord K volume d])
          refine ⟨sisterRecord K volume d :: new, ?_, ?_, ?_⟩
          · rw [sisterLoop_cons_hit_more K volume tol errMax mp d rest t ov hp ho hb, h1]
            simp only [List.length_cons, List.append_assoc, List.singleton_append, Nat.cast_add,
              Nat.cast_one, Prod.mk.injEq, and_true]
            ring
          · intro r hr
            rcases List.mem_cons.1 hr with rfl | hr
            · exact ⟨rfl, rfl⟩
            · exact h2 r hr
          · simp only [List.cons_ne_nil, false_iff, not_forall]
            exact ⟨d, List.mem_cons_self _ _, hp, fun h => h ho⟩
      · obtain ⟨new, h1, h2, h3⟩ := sisterLoop_spec mp rest t ov
        refine ⟨new, ?_, h2, ?_⟩
        · rw [sisterLoop_cons_miss K volume tol errMax mp d rest _ ho, h1]
        · simp [h3, ho]

theorem motherTest_of_overlap (mp : Point) (t : Int) (ov : List (OverlapRecord Prim T))
    (h : motherOverlap K mother tol mp) :
    motherTest K volume mother tol errMax mp t ov =
      (t + 1, ov ++ [motherRecord K volume mother], decide (t + 1 > errMax)) := by
  simp only [motherTest, h.1, h.2, if_true]

theorem motherTest_of_not_overlap (mp : Point) (t : Int) (ov : List (OverlapRecord Prim T))
    (h : ¬ motherOverlap K mother tol mp) :
    motherTest K volume mother tol errMax mp t ov = (t, ov, false) := by
  unfold motherOverlap at h
  by_cases hi : K.Inside mother.solid mp = EInside.kOutside
  · have hd : ¬ K.DistanceToIn mother.solid mp > tol := fun hd => h ⟨hi, hd⟩
    simp only [motherTest, hi, hd, if_true, if_false]
  · simp only [motherTest, hi, if_false]

theorem samplePoint_zero (g : G) :
    samplePoint K volume g 0 =
      K.TransformPoint volume.tf (K.GetPointOnSurface volume.solid g).1 := rfl

theorem samplePoint_succ (g : G) (i : Nat) :
    samplePoint K volume g (i + 1) =
      samplePoint K volume (K.GetPointOnSurface volume.solid g).2 i := rfl

/-- A sample that is a mother overlap and pushes `trials` above `errMax` ends
the sampling. -/
theorem sampleLoop_succ_break (n : Nat) (t : Int) (s : State Prim T G)
    (h : motherOverlap K mother tol (samplePoint K volume s.lib 0)) (hb : t + 1 > errMax) :
    sampleLoop K volume mother tol errMax (n + 1) (t, s) =
      (t + 1, ⟨s.fOverlaps ++ [motherRecord K volume mother],
        (K.GetPointOnSurface volume.solid s.lib).2⟩) := by
  rw [samplePoint_zero] at h
  simp only [sampleLoop, motherTest_of_overlap K volume mother tol errMax _ t _ h, hb,
    decide_True, if_true]

/-- A sample that is a mother overlap and leaves `trials` at most `errMax` goes
on to the sister loop and to the next sample. -/
theorem sampleLoop_succ_hit (n : Nat) (t : Int) (s : State Prim T G)
    (h : motherOverlap K mother tol (samplePoint K volume s.lib 0)) (hb : ¬ t + 1 > errMax) :
    sampleLoop K volume mother tol errMax (n + 1) (t, s) =
      sampleLoop K volume mother tol errMax n
        ((sisterLoop K volume tol errMax (samplePoint K volume s.lib 0) mother.daughters
            (t + 1, s.fOverlaps ++ [motherRecord K volume mother])).1,
          ⟨(sisterLoop K volume tol errMax (samplePoint K volume s.lib 0) mother.daughters
            (t + 1, s.fOverlaps ++ [motherRecord K volume mother])).2,
            (K.GetPointOnSurface volume.solid s.lib).2⟩) := by
  rw [samplePoint_zero] at h
  simp only [sampleLoop, motherTest_of_overlap K volume mother tol errMax _ t _ h, hb,
    decide_False, samplePoint_zero]
  rfl

/-- A sample that is no mother overlap goes on to the sister loop and to the
next sample, whatever the sister loop does. -/
theorem sampleLoop_succ_miss (n : Nat) (t : Int) (s : State Prim T G)
    (h : ¬ motherOverlap K mother tol (samplePoint K volume s.lib 0)) :
    sampleLoop K volume mother tol errMax (n + 1) (t, s) =
      sampleLoop K volume mother tol errMax n
        ((sisterLoop K volume tol errMax (samplePoint K volume s.lib 0) mother.daughters
            (t, s.fOverlaps)).1,
          ⟨(sisterLoop K volume tol errMax (samplePoint K volume s.lib 0) mother.daughters
            (t, s.fOverlaps)).2,
            (K.GetPointOnSurface volume.solid s.lib).2⟩) := by
  rw [samplePoint_zero] at h
  simp only [sampleLoop, motherTest_of_not_overlap K volume mother tol errMax _ t _ h,
    samplePoint_zero]
  rfl

theorem forall_lt_succ_iff (p : Nat → Prop) (n : Nat) :
    (∀ i, i < n + 1 → p i) ↔ p 0 ∧ ∀ i, i < n → p (i + 1) := by
  constructor
  · intro h
    exact ⟨h 0 (Nat.succ_pos n), fun i hi => h (i + 1) (Nat.succ_lt_succ hi)⟩
  · rintro ⟨h0, h⟩ i hi
    cases i with
    | zero => exact h0
    | succ j => exact h j (Nat.lt_of_succ_lt_succ hi)

/-- What the sampling loop does from any state: it appends a list `new` of
records of `volume`; `new` is empty exactly when none of the `n` samples is an
overlap; the mother records in `new` are at most `n`, and at most one or at
most `errMax + 1 - trials`. -/
theorem sampleLoop_spec :
    ∀ (n : Nat) (t : Int) (s : State Prim T G),
      ∃ new : List (OverlapRecord Prim T),
        (sampleLoop K volume mother tol errMax n (t, s)).2.fOverlaps = s.fOverlaps ++ new ∧
        (∀ r ∈ new, r.1 = volume.ptr) ∧
        (new = [] ↔ ∀ i, i < n → ¬ isOverlap K volume mother tol (samplePoint K volume s.lib i)) ∧
        new.countP isMotherRecord ≤ n ∧
        (new.countP isMotherRecord ≤ 1 ∨ (new.countP isMotherRecord : Int) + t ≤ errMax + 1)
  | 0, t, s => ⟨[], by simp [sampleLoop]⟩
  | n + 1, t, s => by
    by_cases hm : motherOverlap K mother tol (samplePoint K volume s.lib 0)
    · by_cases hb : t + 1 > errMax
      · refine ⟨[motherRecord K volume mother], ?_, ?_, ?_, ?_, ?_⟩
        · rw [sampleLoop_succ_break K volume mother tol errMax n t s hm hb]
        · intro r hr
          rw [List.mem_singleton] at hr
          subst hr
          rfl
        · simp only [List.cons_ne_nil, false_iff, not_forall]
          exact ⟨0, Nat.succ_pos n, fun h => h (Or.inl hm)⟩
        · simp [List.countP_cons, isMotherRecord_motherRecord]
        · left
          simp [List.countP_cons, isMotherRecord_motherRecord]
      · obtain ⟨sis, e1, p1, _⟩ := sisterLoop_spec K volume tol errMax
          (samplePoint K volume s.lib 0) mother.daughters (t + 1)
          (s.fOverlaps ++ [motherRecord K volume mother])
        obtain ⟨new, e2, p2, _, c2, b2⟩ := sampleLoop_spec n (t + 1 + sis.length)
          ⟨s.fOverlaps ++ [motherRecord K volume mother] ++ sis,
            (K.GetPointOnSurface volume.solid s.lib).2⟩
        have hsis : sis.countP isMotherRecord = 0 := by
          rw [List.countP_eq_zero]
          intro r hr
          simp [(p1 r hr).2]
        refine ⟨motherRecord K volume mother :: (sis ++ new), ?_, ?_, ?_, ?_, ?_⟩
        · rw [sampleLoop_succ_hit K volume mother tol errMax n t s hm hb, e1, e2]
          simp
        · intro r hr
          rcases List.mem_cons.1 hr with rfl | hr
          · rfl
          · rcases List.mem_append.1 hr with hr | hr
            · exact (p1 r hr).1
            · exact p2 r hr
        · simp only [List.cons_ne_nil, false_iff, not_forall]
          exact ⟨0, Nat.succ_pos n, fun h => h (Or.inl hm)⟩
        · simp only [List.countP_cons, List.countP_append, hsis,
            isMotherRecord_motherRecord, if_true]
          omega
        · right
          simp only [List.countP_cons, List.countP_append, hsis,
            isMotherRecord_motherRecord, if_true]
          push_cast
          rcases b2 with b2 | b2
          · have : (List.countP isMotherRecord new : Int) ≤ 1 := by exact_mod_cast b2
            omega
          · omega
    · obtain ⟨sis, e1, p1, q1⟩ := sisterLoop_spec K volume tol errMax
        (samplePoint K volume s.lib 0) mother.daughters t s.fOverlaps
      obtain ⟨new, e2, p2, q2, c2, b2⟩ := sampleLoop_spec n (t + sis.length)
        ⟨s.fOverlaps ++ sis, (K.GetPointOnSurface volume.solid s.lib).2⟩
      have hsis : sis.countP isMotherRecord = 0 := by
        rw [List.countP_eq_zero]
        intro r hr
        simp [(p1 r hr).2]
      refine ⟨sis ++ new, ?_, ?_, ?_, ?_, ?_⟩
      · rw [sampleLoop_succ_miss K volume mother tol errMax n t s hm, e1, e2]
        simp
      · intro r hr
        rcases List.mem_append.1 hr with hr | hr
        · exact (p1 r hr).1
        · exact p2 r hr
      · rw [List.append_eq_nil, q1, q2, forall_lt_succ_iff]
        constructor
        · rintro ⟨h1, h2⟩
          refine ⟨?_, fun i hi => h2 i hi⟩
          rintro (h | ⟨d, hd, hp, ho⟩)
          · exact hm h
          · exact h1 d hd hp ho
        · rintro ⟨h1, h2⟩
          exact ⟨fun d hd hp ho => h1 (Or.inr ⟨d, hd, hp, ho⟩), fun i hi => h2 i hi⟩
      · simp only [List.countP_append, hsis]
        omega
      · simp only [List.countP_append, hsis, zero_add]
        rcases b2 with b2 | b2
        · exact Or.inl b2
        · right
          omega

/-- When the first `k` samples are mother overlaps that no sister classifies as
inside, and `trials + k = errMax + 1`, the loop appends exactly `k` mother
records. -/
theorem sampleLoop_attain :
    ∀ (n : Nat) (t : Int) (s : State Prim T G) (k : Nat),
      t + k = errMax + 1 → 1 ≤ k → k ≤ n →
      (∀ i, i < k → motherOverlap K mother tol (samplePoint K volume s.lib i) ∧
        insideNoSister K volume mother (samplePoint K volume s.lib i)) →
      ∃ new : List (OverlapRecord Prim T),
        (sampleLoop K volume mother tol errMax n (t, s)).2.fOverlaps = s.fOverlaps ++ new ∧
        new.countP isMotherRecord = k
  | 0, t, s, k, _, h1, hn, _ => by omega
  | n + 1, t, s, k, hk, h1, hn, hs => by
    have hm := (hs 0 (by omega)).1
    by_cases hb : t + 1 > errMax
    · refine ⟨[motherRecord K volume mother], ?_, ?_⟩
      · rw [sampleLoop_succ_break K volume mother tol errMax n t s hm hb]
      · simp only [List.countP_cons, List.countP_nil, isMotherRecord_motherRecord, if_true]
        omega
    · obtain ⟨sis, e1, _, q1⟩ := sisterLoop_spec K volume tol errMax
        (samplePoint K volume s.lib 0) mother.daughters (t + 1)
        (s.fOverlaps ++ [motherRecord K volume mother])
      have hsis : sis = [] := by
        rw [q1]
        intro d hd hp ho
        exact (hs 0 (by omega)).2 d hd hp ho.1
      subst hsis
      obtain ⟨new, e2, c2⟩ := sampleLoop_attain n (t + 1)
        ⟨s.fOverlaps ++ [motherRecord K volume mother],
          (K.GetPointOnSurface volume.solid s.lib).2⟩ (k - 1)
        (by omega) (by omega) (by omega)
        (fun i hi => hs (i + 1) (by omega))
      refine ⟨motherRecord K volume mother :: new, ?_, ?_⟩
      · rw [sampleLoop_succ_hit K volume mother tol errMax n t s hm hb, e1]
        simp only [List.length_nil, Nat.cast_zero, add_zero, List.append_nil]
        rw [e2]
        simp
      · simp only [List.countP_cons, isMotherRecord_motherRecord, if_true, c2]
        omega

/-- Without a mother overlap among the `n` samples the loop is the loop that
draws `n` samples and runs the sister test on each. -/
theorem sampleLoop_eq_sisterOnlyLoop :
    ∀ (n : Nat) (t : Int) (s : State Prim T G),
      (∀ i, i < n → ¬ motherOverlap K mother tol (samplePoint K volume s.lib i)) →
      sampleLoop K volume mother tol errMax n (t, s) =
        sisterOnlyLoop K volume mother tol errMax n (t, s)
  | 0, t, s, _ => rfl
  | n + 1, t, s, h => by
    rw [sampleLoop_succ_miss K volume mother tol errMax n t s (h 0 (Nat.succ_pos n))]
    rw [sampleLoop_eq_sisterOnlyLoop n _ _ (fun i hi => h (i + 1) (Nat.succ_lt_succ hi))]
    rfl

theorem sisterOnlyLoop_lib :
    ∀ (n : Nat) (t : Int) (s : State Prim T G),
      (sisterOnlyLoop K volume mother tol errMax n (t, s)).2.lib = libAfter K volume.solid n s.lib
  | 0, t, s => rfl
  | n + 1, t, s => by
    simp only [sisterOnlyLoop, libAfter]
    exact sisterOnlyLoop_lib n _ _

theorem samplesDrawn_succ_break (n : Nat) (t : Int) (s : State Prim T G)
    (h : motherOverlap K mother tol (samplePoint K volume s.lib 0)) (hb : t + 1 > errMax) :
    samplesDrawn K volume mother tol errMax (n + 1) (t, s) = 1 := by
  rw [samplePoint_zero] at h
  simp only [samplesDrawn, motherTest_of_overlap K volume mother tol errMax _ t _ h, hb,
    decide_True, if_true]

theorem samplesDrawn_succ_miss (n : Nat) (t : Int) (s : State Prim T G)
    (h : ¬ motherOverlap K mother tol (samplePoint K volume s.lib 0)) :
    samplesDrawn K volume mother tol errMax (n + 1) (t, s) =
      samplesDrawn K volume mother tol errMax n
        ((sisterLoop K volume tol errMax (samplePoint K volume s.lib 0) mother.daughters
            (t, s.fOverlaps)).1,
          ⟨(sisterLoop K volume tol errMax (samplePoint K volume s.lib 0) mother.daughters
            (t, s.fOverlaps)).2,
            (K.GetPointOnSurface volume.solid s.lib).2⟩) + 1 := by
  rw [samplePoint_zero] at h
  simp only [samplesDrawn, motherTest_of_not_overlap K volume mother tol errMax _ t _ h,
    samplePoint_zero]
  rfl

theorem samplesDrawn_succ_pos (n : Nat) (t : Int) (s : State Prim T G) :
    0 < samplesDrawn K volume mother tol errMax (n + 1) (t, s) := by
  simp only [samplesDrawn]
  split <;> omega

/-- When every sample that the loop draws is no overlap, the loop draws all `n`
samples and changes neither `trials` nor the registry. -/
theorem sampleLoop_of_no_overlap :
    ∀ (n : Nat) (t : Int) (s : State Prim T G),
      (∀ i, i < samplesDrawn K volume mother tol errMax n (t, s) →
        ¬ isOverlap K volume mother tol (samplePoint K volume s.lib i)) →
      sampleLoop K volume mother tol errMax n (t, s) =
          (t, ⟨s.fOverlaps, libAfter K volume.solid n s.lib⟩) ∧
        samplesDrawn K volume mother tol errMax n (t, s) = n
  | 0, t, s, _ => ⟨rfl, rfl⟩
  | n + 1, t, s, h => by
    have h0 := h 0 (samplesDrawn_succ_pos K volume mother tol errMax n t s)
    have hm : ¬ motherOverlap K mother tol (samplePoint K volume s.lib 0) :=
      fun c => h0 (Or.inl c)
    obtain ⟨sis, e1, _, q1⟩ := sisterLoop_spec K volume tol errMax
      (samplePoint K volume s.lib 0) mother.daughters t s.fOverlaps
    have hsis : sis = [] := by
      rw [q1]
      intro d hd hp ho
      exact h0 (Or.inr ⟨d, hd, hp, ho⟩)
    subst hsis
    simp only [List.length_nil, Nat.cast_zero, add_zero, List.append_nil] at e1
    have hd := samplesDrawn_succ_miss K volume mother tol errMax n t s hm
    rw [e1] at hd
    have ih := sampleLoop_of_no_overlap n t
      ⟨s.fOverlaps, (K.GetPointOnSurface volume.solid s.lib).2⟩
      (fun i hi => h (i + 1) (by rw [hd]; exact Nat.succ_lt_succ hi))
    refine ⟨?_, ?_⟩
    · rw [sampleLoop_succ_miss K volume mother tol errMax n t s hm, e1]
      exact ih.1
    · rw [hd, ih.2]

theorem samplesDrawn_of_no_motherOverlap :
    ∀ (n : Nat) (t : Int) (s : State Prim T G),
      (∀ i, i < n → ¬ motherOverlap K mother tol (samplePoint K volume s.lib i)) →
      samplesDrawn K volume mother tol errMax n (t, s) = n
  | 0, t, s, _ => rfl
  | n + 1, t, s, h => by
    rw [samplesDrawn_succ_miss K volume mother tol errMax n t s (h 0 (Nat.succ_pos n)),
      samplesDrawn_of_no_motherOverlap n _ _ (fun i hi => h (i + 1) (Nat.succ_lt_succ hi))]

end loops

/-! ## One pass over a placement -/

section node

variable (K : Kernel Prim T Point G) (res : Int) (tol : ℚ) (verbose : Bool) (errMax : Int)

theorem CheckOverlapNode_some (mother volume : PV Prim T) (s : State Prim T G) :
    CheckOverlapNode K res tol verbose errMax (some mother) volume s =
      ((K.CheckOverlaps (some mother) volume res tol verbose errMax s.lib).1,
        (sampleLoop K volume mother tol errMax res.toNat
          (0, ⟨s.fOverlaps,
            (K.CheckOverlaps (some mother) volume res tol verbose errMax s.lib).2⟩)).2) := rfl

theorem CheckOverlapNode_none (volume : PV Prim T) (s : State Prim T G) :
    CheckOverlapNode K res tol verbose errMax none volume s =
      ((K.CheckOverlaps none volume res tol verbose errMax s.lib).1,
        ⟨s.fOverlaps, (K.CheckOverlaps none volume res tol verbose errMax s.lib).2⟩) := rfl

/-- The registry after a pass is the registry before it followed by the
appended records. -/
theorem CheckOverlapNode_fOverlaps (mother : Option (PV Prim T)) (volume : PV Prim T)
    (s : State Prim T G) :
    (CheckOverlapNode K res tol verbose errMax mother volume s).2.fOverlaps =
      s.fOverlaps ++ appended K res tol verbose errMax mother volume s := by
  cases mother with
  | none => simp [appended, CheckOverlapNode_none]
  | some m =>
    obtain ⟨new, e, _⟩ := sampleLoop_spec K volume m tol errMax res.toNat 0
      ⟨s.fOverlaps, (K.CheckOverlaps (some m) volume res tol verbose errMax s.lib).2⟩
    simp only [appended, CheckOverlapNode_some]
    rw [e]
    simp

/-- The appended records of a pass over a placement with a mother, in terms of
its samples. -/
theorem appended_spec (mother volume : PV Prim T) (s : State Prim T G) :
    (∀ r ∈ appended K res tol verbose errMax (some mother) volume s, r.1 = volume.ptr) ∧
    (appended K res tol verbose errMax (some mother) volume s = [] ↔
      ∀ i, i < res.toNat → ¬ isOverlap K volume mother tol
        (nodeSample K res tol verbose errMax mother volume s i)) ∧
    (appended K res tol verbose errMax (some mother) volume s).countP isMotherRecord ≤
      res.toNat ∧
    ((appended K res tol verbose errMax (some mother) volume s).countP isMotherRecord ≤ 1 ∨
      ((appended K res tol verbose errMax (some mother) volume s).countP isMotherRecord : Int)
        ≤ errMax + 1) := by
  obtain ⟨new, e, p, q, c, b⟩ := sampleLoop_spec K volume mother tol errMax res.toNat 0
    ⟨s.fOverlaps, (K.CheckOverlaps (some mother) volume res tol verbose errMax s.lib).2⟩
  have ha : appended K res tol verbose errMax (some mother) volume s = new := by
    simp only [appended, CheckOverlapNode_some]
    rw [e]
    simp
  rw [ha]
  refine ⟨p, q, c, ?_⟩
  rcases b with b | b
  · exact Or.inl b
  · exact Or.inr (by omega)

theorem harmless_iff_not_isOverlap (mother volume : PV Prim T) (mp : Point) :
    harmless K volume mother tol mp ↔ ¬ isOverlap K volume mother tol mp := by
  unfold harmless isOverlap motherOverlap sisterOverlap
  constructor
  · rintro ⟨h1, h2⟩ (⟨a, b⟩ | ⟨d, hd, hp, a, b⟩)
    · rcases h1 with h1 | h1
      · exact h1 a
      · exact absurd b (not_lt.2 h1)
    · rcases h2 d hd hp with h | h
      · exact h a
      · exact absurd b (not_lt.2 h)
  · intro h
    refine ⟨?_, fun d hd hp => ?_⟩
    · by_cases a : K.Inside mother.solid mp = EInside.kOutside
      · exact Or.inr (not_lt.1 (fun b => h (Or.inl ⟨a, b⟩)))
      · exact Or.inl a
    · by_cases a : K.Inside d.solid (K.TransformPoint (K.Inverse d.tf) mp) = EInside.kInside
      · exact Or.inr (not_lt.1 (fun b => h (Or.inr ⟨d, hd, hp, a, b⟩)))
      · exact Or.inl a

end node

/-! ## The traversal of `CheckOverlap` -/

section tree

variable (K : Kernel Prim T Point G) (res : Int) (tol : ℚ) (verbose : Bool) (errMax : Int)

mutual
theorem CheckOverlap_state :
    ∀ (volume : PV Prim T) (mother : Option (PV Prim T)) (s : State Prim T G),
      (CheckOverlap K res tol verbose errMax mother volume s).2 =
        (visits mother volume).foldl (passState K res tol verbose errMax) s
  | .mk ptr solid tf vis ds, mother, s => by
    simp only [CheckOverlap, visits, List.foldl_cons]
    rw [CheckOverlapLoop_state ds]
    rfl
theorem CheckOverlapLoop_state :
    ∀ (ds : List (PV Prim T)) (mother : PV Prim T) (s : State Prim T G),
      (CheckOverlapLoop K res tol verbose errMax mother ds s).2 =
        (visitsList mother ds).foldl (passState K res tol verbose errMax) s
  | [], mother, s => rfl
  | d :: rest, mother, s => by
    simp only [CheckOverlapLoop, visitsList, List.foldl_append]
    rw [CheckOverlapLoop_state rest, CheckOverlap_state d]
end

theorem foldl_passState_fOverlaps :
    ∀ (vs : List (Option (PV Prim T) × PV Prim T)) (s : State Prim T G),
      (vs.foldl (passState K res tol verbose errMax) s).fOverlaps =
        s.fOverlaps ++ recordsOfVisits K res tol verbose errMax vs s
  | [], s => by simp [recordsOfVisits]
  | mv :: rest, s => by
    rw [List.foldl_cons, foldl_passState_fOverlaps rest, recordsOfVisits, ← List.append_assoc]
    congr 1
    exact CheckOverlapNode_fOverlaps K res tol verbose errMax mv.1 mv.2 s

mutual
theorem map_snd_visits :
    ∀ (volume : PV Prim T) (mother : Option (PV Prim T)),
      (visits mother volume).map Prod.snd = nodes volume
  | .mk ptr solid tf vis ds, mother => by
    simp only [visits, nodes, List.map_cons, map_snd_visitsList ds]
theorem map_snd_visitsList :
    ∀ (ds : List (PV Prim T)) (mother : PV Prim T),
      (visitsList mother ds).map Prod.snd = nodesList ds
  | [], mother => rfl
  | d :: rest, mother => by
    simp only [visitsList, nodesList, List.map_append, map_snd_visits d,
      map_snd_visitsList rest]
end

end tree

/-! ## Drawing the overlaps -/

mutual
theorem withHighlights_nil (lv : Nat → Nat) : ∀ t : PV Prim T, withHighlights lv [] t = t
  | .mk ptr solid tf vis ds => by
    simp [withHighlights, withHighlightsList_nil lv ds]
theorem withHighlightsList_nil (lv : Nat → Nat) :
    ∀ ds : List (PV Prim T), withHighlightsList lv [] ds = ds
  | [] => rfl
  | d :: rest => by
    simp [withHighlightsList, withHighlights_nil lv d, withHighlightsList_nil lv rest]
end

theorem withHighlightsList_append (lv : Nat → Nat) (hl : List (Nat × PV Prim T)) :
    ∀ xs ys : List (PV Prim T),
      withHighlightsList lv hl (xs ++ ys) =
        withHighlightsList lv hl xs ++ withHighlightsList lv hl ys
  | [], ys => rfl
  | x :: xs, ys => by
    simp [withHighlightsList, withHighlightsList_append lv hl xs ys]

/-- A placement without daughters whose logical volume no entry of `hl` reaches
gets no new daughter. -/
theorem withHighlights_fresh (lv : Nat → Nat) (hl : List (Nat × PV Prim T)) (p : Nat)
    (sol : Solid Prim T) (tf : T) (vis : G4Colour) (hf : ∀ h ∈ hl, lv h.1 ≠ lv p) :
    withHighlights lv hl (PV.mk p sol tf vis []) = PV.mk p sol tf vis [] := by
  have : hl.filter (fun h => decide (lv h.1 = lv p)) = [] := by
    rw [List.filter_eq_nil_iff]
    intro h hh
    simpa using hf h hh
  simp only [withHighlights, withHighlightsList, this, List.map_nil, List.append_nil]

mutual
theorem withHighlights_AddDaughter (lv : Nat → Nat) (hl : List (Nat × PV Prim T))
    (vol p : Nat) (sol : Solid Prim T) (tf : T) (vis : G4Colour)
    (hf : ∀ h ∈ hl, lv h.1 ≠ lv p) :
    ∀ t : PV Prim T,
      withHighlights lv hl (AddDaughter lv vol (PV.mk p sol tf vis []) t) =
        withHighlights lv ((vol, PV.mk p sol tf vis []) :: hl) t
  | .mk ptr solid tf2 vis2 ds => by
    have hds := withHighlightsList_AddDaughterList lv hl vol p sol tf vis hf ds
    have hfr := withHighlights_fresh lv hl p sol tf vis hf
    by_cases hp : lv ptr = lv vol
    · simp only [AddDaughter, hp, if_true]
      simp only [withHighlights, withHighlightsList_append, withHighlightsList, hds, hfr,
        List.filter_cons]
      simp [hp]
      exact fun a b hab => hf (a, b) hab
    · have hp2 : ¬ lv vol = lv ptr := fun h => hp h.symm
      simp only [AddDaughter, hp, if_false]
      simp only [withHighlights, hds, List.filter_cons]
      simp [hp2]
theorem withHighlightsList_AddDaughterList (lv : Nat → Nat) (hl : List (Nat × PV Prim T))
    (vol p : Nat) (sol : Solid Prim T) (tf : T) (vis : G4Colour)
    (hf : ∀ h ∈ hl, lv h.1 ≠ lv p) :
    ∀ ds : List (PV Prim T),
      withHighlightsList lv hl (AddDaughterList lv vol (PV.mk p sol tf vis []) ds) =
        withHighlightsList lv ((vol, PV.mk p sol tf vis []) :: hl) ds
  | [] => rfl
  | d :: rest => by
    simp only [AddDaughterList, withHighlightsList,
      withHighlights_AddDaughter lv hl vol p sol tf vis hf d,
      withHighlightsList_AddDaughterList lv hl vol p sol tf vis hf rest]
end

theorem fst_of_mem_highlightsFrom (K : Kernel Prim T Point G) (newPtr : Nat → Nat)
    (reg : List (OverlapRecord Prim T)) (k : Nat) (h : Nat × PV Prim T)
    (hh : h ∈ highlightsFrom K newPtr reg k) : ∃ r ∈ reg, h.1 = r.1 := by
  simp only [highlightsFrom, List.mem_map] at hh
  obtain ⟨ir, hir, rfl⟩ := hh
  exact ⟨ir.2, List.snd_mem_of_mem_enumFrom hir, rfl⟩

theorem DrawOverlapLoop_eq (K : Kernel Prim T Point G) (lv newPtr : Nat → Nat) :
    ∀ (reg : List (OverlapRecord Prim T)) (k : Nat) (world : PV Prim T),
      (∀ j : Nat, ∀ r ∈ reg, lv (newPtr j) ≠ lv r.1) →
      DrawOverlapLoop K lv newPtr reg k world =
        withHighlights lv (highlightsFrom K newPtr reg k) world
  | [], k, world, _ => by
    simp [DrawOverlapLoop, highlightsFrom, withHighlights_nil]
  | (vol, sol) :: rest, k, world, hf => by
    have hrest : ∀ j : Nat, ∀ r ∈ rest, lv (newPtr j) ≠ lv r.1 :=
      fun j r hr => hf j r (List.mem_cons_of_mem _ hr)
    rw [DrawOverlapLoop, DrawOverlapLoop_eq K lv newPtr rest (k + 1) _ hrest, overlapPhys,
      withHighlights_AddDaughter]
    · simp [highlightsFrom, overlapPhys]
    · intro h hh
      obtain ⟨r, hr, e⟩ := fst_of_mem_highlightsFrom K newPtr rest (k + 1) h hh
      rw [e]
      exact fun c => hrest k r hr c.symm

theorem highlightsFrom_records (K : Kernel Prim T Point G) (newPtr : Nat → Nat) :
    ∀ (reg : List (OverlapRecord Prim T)) (k : Nat),
      (highlightsFrom K newPtr reg k).map (fun h => (h.1, h.2.solid)) = reg
  | [], k => rfl
  | (vol, sol) :: rest, k => by
    have ih := highlightsFrom_records K newPtr rest (k + 1)
    simp only [highlightsFrom] at ih
    simp only [highlightsFrom, List.enumFrom_cons, List.map_cons, ih]
    rfl

theorem highlightsFrom_shape (K : Kernel Prim T Point G) (newPtr : Nat → Nat)
    (reg : List (OverlapRecord Prim T)) (k : Nat) (h : Nat × PV Prim T)
    (hh : h ∈ highlightsFrom K newPtr reg k) :
    h.2.tf = K.identity ∧ h.2.vis = ⟨1, 1, 0, 1⟩ ∧ h.2.daughters = [] := by
  simp only [highlightsFrom, List.mem_map] at hh
  obtain ⟨ir, _, rfl⟩ := hh
  exact ⟨rfl, rfl, rfl⟩

/-! ## Two interpenetrating intervals -/

/-- From an odd generator state the loop over `cubeA` draws the lower end
point, which lies in no other daughter, and then the upper end point, which
lies inside `cubeB`: two iterations append one sister record. -/
theorem sampleLoop_cubeA_two (n : Nat) (t : Int) (ov : List (OverlapRecord (Int × Int) Int))
    (g : Nat) (hg : g % 2 = 1) :
    sampleLoop lineKernel cubeA (lineMother [cubeA, cubeB]) 0 1 (n + 2) (t, ⟨ov, g⟩) =
      sampleLoop lineKernel cubeA (lineMother [cubeA, cubeB]) 0 1 n
        (t + 1, ⟨ov ++ [sisterRecord lineKernel cubeA cubeB], g + 2⟩) := by
  have hg1 : (g + 1) % 2 = 0 := by omega
  have hg0 : ¬ g % 2 = 0 := by omega
  simp [sampleLoop, motherTest, sisterLoop, lineKernel, lineGetPointOnSurface, lineInside,
    lineDistanceToIn, lineDistanceToOut, lineMother, cubeA, cubeB, lineLeaf, PV.solid, PV.tf,
    PV.ptr, PV.daughters, hg1, hg0]

theorem sampleLoop_cubeA_even :
    ∀ (n : Nat) (t : Int) (ov : List (OverlapRecord (Int × Int) Int)) (g : Nat), g % 2 = 1 →
      (sampleLoop lineKernel cubeA (lineMother [cubeA, cubeB]) 0 1 (2 * n)
          (t, ⟨ov, g⟩)).2.fOverlaps =
        ov ++ List.replicate n (sisterRecord lineKernel cubeA cubeB)
  | 0, t, ov, g, _ => by simp [sampleLoop]
  | n + 1, t, ov, g, hg => by
    have e : 2 * (n + 1) = 2 * n + 2 := by ring
    rw [e, sampleLoop_cubeA_two (2 * n) t ov g hg,
      sampleLoop_cubeA_even n _ _ (g + 2) (by omega)]
    simp [List.replicate_succ]

theorem lineCheckLoop_cubeA (n : Nat) :
    lineCheckLoop (lineMother [cubeA, cubeB]) cubeA 0 (n + 1) 0 = (true, 1) := by
  simp [lineCheckLoop, lineGetPointOnSurface, lineInside, lineDistanceToIn, lineDistanceToOut,
    lineMother, cubeA, cubeB, lineLeaf, PV.solid, PV.tf, PV.ptr, PV.daughters]

/-! ## The claims -/

/-- C1. A placement with a mother: when every boundary sample that the sampling
loop draws for it is harmless (the mother does not classify it as outside or
its `DistanceToIn` is at most `tol`, and every other daughter of the mother does
not classify it as inside or its `DistanceToOut` is at most `tol`), the pass
appends no record, the registry is left as it was and all `res` samples are
drawn.  A distance equal to `tol` is harmless: the comparisons are strict. -/
theorem CheckOverlap_no_record_of_harmless (K : Kernel Prim T Point G) (res : Int) (tol : ℚ)
    (verbose : Bool) (errMax : Int) (mother volume : PV Prim T) (s : State Prim T G)
    (h : ∀ i, i < nodeSamplesDrawn K res tol verbose errMax mother volume s →
      harmless K volume mother tol (nodeSample K res tol verbose errMax mother volume s i)) :
    appended K res tol verbose errMax (some mother) volume s = [] ∧
      (CheckOverlapNode K res tol verbose errMax (some mother) volume s).2.fOverlaps =
        s.fOverlaps ∧
      nodeSamplesDrawn K res tol verbose errMax mother volume s = res.toNat := by
  have hl := sampleLoop_of_no_overlap K volume mother tol errMax res.toNat 0
    ⟨s.fOverlaps, (K.CheckOverlaps (some mother) volume res tol verbose errMax s.lib).2⟩
    (fun i hi => (harmless_iff_not_isOverlap K tol mother volume _).1 (h i hi))
  have he : (CheckOverlapNode K res tol verbose errMax (some mother) volume s).2.fOverlaps =
      s.fOverlaps := by
    rw [CheckOverlapNode_some, hl.1]
  refine ⟨?_, he, hl.2⟩
  rw [appended, he, List.drop_length]

/-- C1, on the line: the interval `[3, 5]` touches its mother `[-5, 5]` at `5`;
with `tol = 0` no record is appended. -/
theorem CheckOverlap_no_record_of_harmless_witness :
    appended lineKernel 4 0 false 1 (some (lineMother [touching])) touching ⟨[], 0⟩ = [] ∧
      (CheckOverlapNode lineKernel 4 0 false 1 (some (lineMother [touching])) touching
        ⟨[], 0⟩).2.fOverlaps = [] ∧
      nodeSamplesDrawn lineKernel 4 0 false 1 (lineMother [touching]) touching ⟨[], 0⟩ = 4 :=
  CheckOverlap_no_record_of_harmless lineKernel 4 0 false 1 (lineMother [touching]) touching
    ⟨[], 0⟩ (by
      intro i hi
      have hi4 : i < 4 := hi
      interval_cases i <;>
        simp [harmless, nodeSample, samplePoint, libAfter, lineKernel, lineCheckOverlaps,
          lineCheckLoop, lineGetPointOnSurface, lineInside, lineDistanceToIn,
          lineDistanceToOut, lineMother, touching, lineLeaf, PV.solid, PV.tf, PV.ptr,
          PV.daughters])

/-- C2, at `errMax = 1`: the interval `[-6, 6]` has both end points outside its
mother `[-5, 5]`; with `res = 2` the pass appends two mother records, one more
than `errMax`. -/
theorem CheckOverlap_two_mother_records_errMax_one :
    (appended lineKernel 2 0 false 1 (some (lineMother [protruding])) protruding
      ⟨[], 0⟩).countP isMotherRecord = 2 := by
  decide

/-- C3, at `errMax = 1`: two intervals `[0, 2]` under one mother, the second
shifted by `1`, with `res = 1000` and `tol = 0`.  The pass over the first one
appends 500 records: one for every sample that falls inside the second. -/
theorem CheckOverlap_two_cubes_records :
    appended lineKernel 1000 0 false 1 (some (lineMother [cubeA, cubeB])) cubeA ⟨[], 0⟩ =
      List.replicate 500 (sisterRecord lineKernel cubeA cubeB) := by
  have h := sampleLoop_cubeA_even 500 0 [] 1 (by decide)
  have e : (1000 : Int).toNat = 2 * 500 := rfl
  have hc : lineKernel.CheckOverlaps (some (lineMother [cubeA, cubeB])) cubeA 1000 0 false 1
      (State.lib (⟨[], 0⟩ : State (Int × Int) Int Nat)) = (true, 1) :=
    lineCheckLoop_cubeA 999
  rw [appended, CheckOverlapNode_some, hc, e]
  rw [show (sampleLoop lineKernel cubeA (lineMother [cubeA, cubeB]) 0 1 (2 * 500)
      (0, ⟨(⟨[], 0⟩ : State (Int × Int) Int Nat).fOverlaps, ((true, 1) : Bool × Nat).2⟩)) =
      sampleLoop lineKernel cubeA (lineMother [cubeA, cubeB]) 0 1 (2 * 500) (0, ⟨[], 1⟩) from rfl]
  rw [h]
  rfl

/-- C4. A placement with a mother and the `res` samples of its pass: one of them
is an overlap (outside the mother by more than `tol`, or inside another daughter
of the mother by more than `tol`) if and only if the pass appends a record whose
placement is this one; every appended record names this placement. -/
theorem CheckOverlap_record_iff_overlap (K : Kernel Prim T Point G) (res : Int) (tol : ℚ)
    (verbose : Bool) (errMax : Int) (mother volume : PV Prim T) (s : State Prim T G) :
    ((∃ i, i < res.toNat ∧
        isOverlap K volume mother tol (nodeSample K res tol verbose errMax mother volume s i)) ↔
      ∃ r ∈ appended K res tol verbose errMax (some mother) volume s, r.1 = volume.ptr) ∧
    (∀ r ∈ appended K res tol verbose errMax (some mother) volume s, r.1 = volume.ptr) := by
  obtain ⟨p, q, _, _⟩ := appended_spec K res tol verbose errMax mother volume s
  refine ⟨?_, p⟩
  constructor
  · rintro ⟨i, hi, ho⟩
    cases hnew : appended K res tol verbose errMax (some mother) volume s with
    | nil => exact absurd ho (q.1 hnew i hi)
    | cons r rest =>
      exact ⟨r, List.mem_cons_self _ _, p r (by rw [hnew]; exact List.mem_cons_self _ _)⟩
  · rintro ⟨r, hr, _⟩
    by_contra hne
    have hall : ∀ i, i < res.toNat → ¬ isOverlap K volume mother tol
        (nodeSample K res tol verbose errMax mother volume s i) :=
      fun i hi ho => hne ⟨i, hi, ho⟩
    rw [q.2 hall] at hr
    exact absurd hr (List.not_mem_nil r)

/-- C5, as stated, fails: the interval `[0, 6]` in the mother `[-5, 5]` with
`res = 1`.  The library check draws the lower end point, finds nothing and
reports `false`; the sampling loop then draws the upper end point and appends a
mother record; the display attribute is not the red one. -/
theorem CheckOverlap_record_without_flag :
    (appended lineKernel 1 0 false 1 (some (lineMother [halfOut])) halfOut
        ⟨[], 1⟩).countP isMotherRecord = 1 ∧
      (CheckOverlap lineKernel 1 0 false 1 (some (lineMother [halfOut])) halfOut
        ⟨[], 1⟩).1.vis ≠ ⟨1, 0, 0, 1 / 2⟩ := by
  decide

/-- C5, amended. After one pass the display attribute of the placement is the
red one with opacity `1/2` when the library check `volume->CheckOverlaps` has
returned `true`, and the attribute it had before otherwise; the records of the
sampling loop do not enter. -/
theorem CheckOverlap_vis (K : Kernel Prim T Point G) (res : Int) (tol : ℚ) (verbose : Bool)
    (errMax : Int) (mother : Option (PV Prim T)) (volume : PV Prim T) (s : State Prim T G) :
    (CheckOverlap K res tol verbose errMax mother volume s).1.vis =
      if (K.CheckOverlaps mother volume res tol verbose errMax s.lib).1 then ⟨1, 0, 0, 1 / 2⟩
      else volume.vis := by
  cases volume with
  | mk ptr solid tf vis ds =>
    cases mother <;> rfl

/-- C6. `CheckOverlap` on the root (a total function): the final state is the one
reached by running the pass of every placement once, in depth-first pre-order;
the placements visited are the nodes of the tree; the registry is the initial
one followed by the per-node record lists in that order; the root appends
nothing. -/
theorem CheckOverlap_preorder (K : Kernel Prim T Point G) (res : Int) (tol : ℚ)
    (verbose : Bool) (errMax : Int) (root : PV Prim T) (s : State Prim T G) :
    (CheckOverlap K res tol verbose errMax none root s).2 =
        (visits none root).foldl (passState K res tol verbose errMax) s ∧
      (visits none root).map Prod.snd = nodes root ∧
      (CheckOverlap K res tol verbose errMax none root s).2.fOverlaps =
        s.fOverlaps ++ recordsOfVisits K res tol verbose errMax (visits none root) s ∧
      appended K res tol verbose errMax none root s = [] := by
  refine ⟨CheckOverlap_state K res tol verbose errMax root none s,
    map_snd_visits root none, ?_, ?_⟩
  · rw [CheckOverlap_state, foldl_passState_fOverlaps]
  · simp [appended, CheckOverlapNode_none]

/-- C7. For `0 ≤ alpha ≤ 1`, `AddTransparency` gives every placement the opacity
`alpha ^ h`, with `h` the height of the placement, and returns
`alpha ^ (h + 1)`; a placement without daughters gets opacity `1`, and on a tree
of one placement the returned value is `alpha`. -/
theorem AddTransparency_spec (t : PV Prim T) (alpha : ℚ) (h0 : 0 ≤ alpha) (h1 : alpha ≤ 1) :
    AddTransparency t alpha = (paintByHeight alpha t, alpha ^ (height t + 1)) ∧
      (∀ n ∈ nodes (AddTransparency t alpha).1, n.vis = ⟨1, 1, 1, alpha ^ height n⟩) ∧
      (∀ n ∈ nodes (AddTransparency t alpha).1, n.daughters = [] → n.vis.alpha = 1) ∧
      (t.daughters = [] →
        (AddTransparency t alpha).1.vis.alpha = 1 ∧ (AddTransparency t alpha).2 = alpha) := by
  have he := AddTransparency_eq alpha h0 h1 t
  have hv : ∀ n ∈ nodes (AddTransparency t alpha).1, n.vis = ⟨1, 1, 1, alpha ^ height n⟩ := by
    rw [he]
    exact vis_of_mem_nodes_paintByHeight alpha t
  have hleaf : ∀ n : PV Prim T, n.daughters = [] → height n = 0 := by
    intro n hn
    cases n with
    | mk ptr solid tf vis ds =>
      simp only [PV.daughters] at hn
      subst hn
      rfl
  refine ⟨he, hv, ?_, ?_⟩
  · intro n hn hd
    rw [hv n hn, hleaf n hd, pow_zero]
  · intro hd
    rw [he]
    cases t with
    | mk ptr solid tf vis ds =>
      simp only [PV.daughters] at hd
      subst hd
      simp [paintByHeight, height, heightList, PV.vis]

/-- C7, with `alpha = 3/4` on a tree of height two: the root gets the opacity
`(3/4) ^ 2` and the call returns `(3/4) ^ 3`. -/
theorem AddTransparency_spec_witness :
    (0 : ℚ) ≤ 3 / 4 ∧ (3 / 4 : ℚ) ≤ 1 ∧
      (AddTransparency smallWorld (3 / 4)).1.vis.alpha = (3 / 4) ^ 2 ∧
      (AddTransparency smallWorld (3 / 4)).2 = (3 / 4) ^ 3 := by
  have h := (AddTransparency_spec smallWorld (3 / 4) (by norm_num) (by norm_num)).1
  rw [h]
  exact ⟨by norm_num, by norm_num, rfl, rfl⟩

/-- C8, as stated, fails: the placements at the addresses `1` and `2` are two
placements of one volume and the registry has one record, which names `1`.
No record names `2`, and yet `DrawOverlap` leaves the new placement `100` under
`2` as well as under `1`: it is added to the logical volume. -/
theorem DrawOverlap_highlight_under_other_placement :
    ([((1 : Nat), (Solid.prim (7, 8) : Solid (Int × Int) Int))].filter
        (fun r => decide (r.1 = 2))) = [] ∧
      ((DrawOverlap lineKernel sharedLogical (fun k => 100 + k)
          (lineMother [cubeA, cubeB], ⟨[(1, .prim (7, 8))], 0⟩)).1.daughters.map
        (fun d => (d.ptr, d.daughters.map PV.ptr))) = [(1, [100]), (2, [100])] := by
  decide

/-- C8, amended. When the logical volumes of the new placements differ from the
logical volumes of the placements named in the registry, `DrawOverlap` leaves
the tree in which every placement has its former daughters, in their order and
with their solids, transforms and colours, followed by one new daughter for
every record that names a placement with the same logical volume, in registry
order; the new daughters are one per record, carry the solid of their record,
the identity transform, the yellow colour and no daughters; the state, and the
registry in it, is unchanged. -/
theorem DrawOverlap_spec (K : Kernel Prim T Point G) (GetLogicalVolume newPtr : Nat → Nat)
    (world : PV Prim T) (s : State Prim T G)
    (hfresh : ∀ j : Nat, ∀ r ∈ s.fOverlaps,
      GetLogicalVolume (newPtr j) ≠ GetLogicalVolume r.1) :
    (DrawOverlap K GetLogicalVolume newPtr (world, s)).1 =
        withHighlights GetLogicalVolume (highlightsFrom K newPtr s.fOverlaps 0) world ∧
      (DrawOverlap K GetLogicalVolume newPtr (world, s)).2 = s ∧
      (highlightsFrom K newPtr s.fOverlaps 0).map (fun h => (h.1, h.2.solid)) = s.fOverlaps ∧
      (∀ h ∈ highlightsFrom K newPtr s.fOverlaps 0,
        h.2.tf = K.identity ∧ h.2.vis = ⟨1, 1, 0, 1⟩ ∧ h.2.daughters = []) :=
  ⟨DrawOverlapLoop_eq K GetLogicalVolume newPtr s.fOverlaps 0 world hfresh, rfl,
    highlightsFrom_records K newPtr s.fOverlaps 0,
    fun h hh => highlightsFrom_shape K newPtr s.fOverlaps 0 h hh⟩

/-- C8, amended, on the line: three records, new addresses from `100` on.  When
every placement has a logical volume of its own, the first daughter of the
world gets the new daughters `100` and `102` and the second one `101`; when the
two daughters are placements of one volume, each of them gets all three. -/
theorem DrawOverlap_spec_witness :
    ((DrawOverlap lineKernel id (fun k => 100 + k)
          (lineMother [cubeA, cubeB], ⟨smallRegistry, 0⟩)).1.daughters.map
        (fun d => (d.ptr, d.daughters.map PV.ptr))) = [(1, [100, 102]), (2, [101])] ∧
      ((DrawOverlap lineKernel sharedLogical (fun k => 100 + k)
          (lineMother [cubeA, cubeB], ⟨smallRegistry, 0⟩)).1.daughters.map
        (fun d => (d.ptr, d.daughters.map PV.ptr))) =
        [(1, [100, 101, 102]), (2, [100, 101, 102])] := by
  have h1 := (DrawOverlap_spec lineKernel id (fun k => 100 + k) (lineMother [cubeA, cubeB])
    ⟨smallRegistry, 0⟩ (by
      intro j r hr
      simp only [smallRegistry, List.mem_cons, List.mem_singleton, List.not_mem_nil,
        or_false] at hr
      rcases hr with rfl | rfl | rfl <;> simp <;> omega)).1
  have h2 := (DrawOverlap_spec lineKernel sharedLogical (fun k => 100 + k)
    (lineMother [cubeA, cubeB]) ⟨smallRegistry, 0⟩ (by
      intro j r hr
      simp only [smallRegistry, List.mem_cons, List.mem_singleton, List.not_mem_nil,
        or_false] at hr
      rcases hr with rfl | rfl | rfl <;> simp [sharedLogical] <;> omega)).1
  rw [h1, h2]
  decide

/-- C9. The two early exits on `errMax`.  A sister record that raises `trials`
above `errMax` ends the sister loop of the current sample: the daughters after
it are skipped.  A sample that is no mother overlap, or is one and leaves
`trials` at most `errMax`, is followed by its sister loop and then by the next
sample, whatever the sister loop has done.  A mother record that raises
`trials` above `errMax` ends the sampling: one sample drawn in this iteration,
no sister loop, no further sample.  Hence, when no sample lies outside the
mother by more than `tol`, the pass draws `res` samples and is the loop that
runs the sister test on each of them. -/
theorem CheckOverlap_errMax_asymmetry (K : Kernel Prim T Point G) (tol : ℚ) (errMax : Int)
    (mother volume : PV Prim T) :
    (∀ (mp : Point) (d : PV Prim T) (rest : List (PV Prim T)) (t : Int)
        (ov : List (OverlapRecord Prim T)),
        d.ptr ≠ volume.ptr → sisterOverlap K tol mp d → t + 1 > errMax →
        sisterLoop K volume tol errMax mp (d :: rest) (t, ov) =
          (t + 1, ov ++ [sisterRecord K volume d])) ∧
      (∀ (n : Nat) (t : Int) (s : State Prim T G),
        ¬ motherOverlap K mother tol (samplePoint K volume s.lib 0) →
        sampleLoop K volume mother tol errMax (n + 1) (t, s) =
            sampleLoop K volume mother tol errMax n
              ((sisterLoop K volume tol errMax (samplePoint K volume s.lib 0)
                  mother.daughters (t, s.fOverlaps)).1,
                ⟨(sisterLoop K volume tol errMax (samplePoint K volume s.lib 0)
                  mother.daughters (t, s.fOverlaps)).2,
                  (K.GetPointOnSurface volume.solid s.lib).2⟩) ∧
          samplesDrawn K volume mother tol errMax (n + 1) (t, s) =
            samplesDrawn K volume mother tol errMax n
              ((sisterLoop K volume tol errMax (samplePoint K volume s.lib 0)
                  mother.daughters (t, s.fOverlaps)).1,
                ⟨(sisterLoop K volume tol errMax (samplePoint K volume s.lib 0)
                  mother.daughters (t, s.fOverlaps)).2,
                  (K.GetPointOnSurface volume.solid s.lib).2⟩) + 1) ∧
      (∀ (n : Nat) (t : Int) (s : State Prim T G),
        motherOverlap K mother tol (samplePoint K volume s.lib 0) → ¬ t + 1 > errMax →
        sampleLoop K volume mother tol errMax (n + 1) (t, s) =
          sampleLoop K volume mother tol errMax n
            ((sisterLoop K volume tol errMax (samplePoint K volume s.lib 0) mother.daughters
                (t + 1, s.fOverlaps ++ [motherRecord K volume mother])).1,
              ⟨(sisterLoop K volume tol errMax (samplePoint K volume s.lib 0) mother.daughters
                (t + 1, s.fOverlaps ++ [motherRecord K volume mother])).2,
                (K.GetPointOnSurface volume.solid s.lib).2⟩)) ∧
      (∀ (n : Nat) (t : Int) (s : State Prim T G),
        motherOverlap K mother tol (samplePoint K volume s.lib 0) → t + 1 > errMax →
        sampleLoop K volume mother tol errMax (n + 1) (t, s) =
            (t + 1, ⟨s.fOverlaps ++ [motherRecord K volume mother],
              (K.GetPointOnSurface volume.solid s.lib).2⟩) ∧
          samplesDrawn K volume mother tol errMax (n + 1) (t, s) = 1) ∧
      (∀ (res : Int) (verbose : Bool) (s : State Prim T G),
        (∀ i, i < res.toNat → ¬ motherOverlap K mother tol
          (nodeSample K res tol verbose errMax mother volume s i)) →
        nodeSamplesDrawn K res tol verbose errMax mother volume s = res.toNat ∧
          (CheckOverlapNode K res tol verbose errMax (some mother) volume s).2 =
            (sisterOnlyLoop K volume mother tol errMax res.toNat
              (0, ⟨s.fOverlaps,
                (K.CheckOverlaps (some mother) volume res tol verbose errMax s.lib).2⟩)).2) := by
  refine ⟨?_, ?_, ?_, ?_, ?_⟩
  · intro mp d rest t ov hp ho hb
    exact sisterLoop_cons_hit_break K volume tol errMax mp d rest t ov hp ho hb
  · intro n t s hm
    exact ⟨sampleLoop_succ_miss K volume mother tol errMax n t s hm,
      samplesDrawn_succ_miss K volume mother tol errMax n t s hm⟩
  · intro n t s hm hb
    exact sampleLoop_succ_hit K volume mother tol errMax n t s hm hb
  · intro n t s hm hb
    exact ⟨sampleLoop_succ_break K volume mother tol errMax n t s hm hb,
      samplesDrawn_succ_break K volume mother tol errMax n t s hm hb⟩
  · intro res verbose s h
    refine ⟨samplesDrawn_of_no_motherOverlap K volume mother tol errMax res.toNat 0 _ h, ?_⟩
    rw [CheckOverlapNode_some, sampleLoop_eq_sisterOnlyLoop K volume mother tol errMax _ _ _ h]

/-- C9, on the line with `errMax = 0` and `res = 4`: the first of two
interpenetrating intervals has no sample outside the mother, draws all four
samples and gets two sister records; the interval `[-6, 6]` stops after its
first sample. -/
theorem CheckOverlap_errMax_asymmetry_witness :
    nodeSamplesDrawn lineKernel 4 0 false 0 (lineMother [cubeA, cubeB]) cubeA ⟨[], 0⟩ = 4 ∧
      (appended lineKernel 4 0 false 0 (some (lineMother [cubeA, cubeB])) cubeA
        ⟨[], 0⟩).length = 2 ∧
      samplesDrawn lineKernel protruding (lineMother [protruding]) 0 0 4 (0, ⟨[], 1⟩) = 1 := by
  refine ⟨?_, by decide, ?_⟩
  · refine ((CheckOverlap_errMax_asymmetry lineKernel 0 0 (lineMother [cubeA, cubeB])
      cubeA).2.2.2.2 4 false ⟨[], 0⟩ ?_).1
    intro i hi
    have hi4 : i < 4 := hi
    unfold motherOverlap
    interval_cases i <;> decide
  · refine ((CheckOverlap_errMax_asymmetry lineKernel 0 0 (lineMother [protruding])
      protruding).2.2.2.1 3 0 ⟨[], 1⟩ ?_ (by decide)).2
    unfold motherOverlap
    decide

/-- C10, as stated, fails at a negative resolution: with `res = -1` and
`errMax = 1` the loop runs no iteration, the pass appends no mother record, and
`0` is not at most `min res (errMax + 1) = -1`. -/
theorem CheckOverlap_mother_records_negative_res :
    ¬ ((((appended lineKernel (-1) 0 false 1 (some (lineMother [protruding])) protruding
        ⟨[], 0⟩).countP isMotherRecord : Nat) : Int) ≤ min (-1) (1 + 1)) := by
  decide

/-- C10, amended. For `errMax ≥ 0` and every `res` the mother records that one
pass appends are at most `min (max res 0) (errMax + 1)`; when `res ≥ errMax + 1`
and each of the first `errMax + 1` samples lies outside the mother by more than
`tol` and is classified as inside by no other daughter, they are exactly
`errMax + 1`. -/
theorem CheckOverlap_mother_records_bound (K : Kernel Prim T Point G) (res : Int) (tol : ℚ)
    (verbose : Bool) (errMax : Int) (mother volume : PV Prim T) (s : State Prim T G)
    (h0 : 0 ≤ errMax) :
    (((appended K res tol verbose errMax (some mother) volume s).countP isMotherRecord : Nat)
        : Int) ≤ min (max res 0) (errMax + 1) ∧
      (errMax + 1 ≤ res →
        (∀ i, i < (errMax + 1).toNat →
          motherOverlap K mother tol (nodeSample K res tol verbose errMax mother volume s i) ∧
            insideNoSister K volume mother
              (nodeSample K res tol verbose errMax mother volume s i)) →
        (((appended K res tol verbose errMax (some mother) volume s).countP isMotherRecord
          : Nat) : Int) = errMax + 1) := by
  obtain ⟨_, _, c, b⟩ := appended_spec K res tol verbose errMax mother volume s
  have hr : (res.toNat : Int) = max res 0 := Int.toNat_eq_max res
  constructor
  · apply le_min
    · omega
    · rcases b with b | b <;> omega
  · intro hle hs
    have hk : ((errMax + 1).toNat : Int) = errMax + 1 := Int.toNat_of_nonneg (by omega)
    obtain ⟨new, e, cnt⟩ := sampleLoop_attain K volume mother tol errMax res.toNat 0
      ⟨s.fOverlaps, (K.CheckOverlaps (some mother) volume res tol verbose errMax s.lib).2⟩
      (errMax + 1).toNat (by omega) (by omega) (by omega) hs
    have ha : appended K res tol verbose errMax (some mother) volume s = new := by
      simp only [appended, CheckOverlapNode_some]
      rw [e]
      simp
    rw [ha, cnt, hk]

/-- C10, amended, on the line with `errMax = 1` and `res = 2`: the interval
`[-6, 6]` gets `errMax + 1 = 2` mother records. -/
theorem CheckOverlap_mother_records_bound_witness :
    (0 : Int) ≤ 1 ∧
      (((appended lineKernel 2 0 false 1 (some (lineMother [protruding])) protruding
        ⟨[], 0⟩).countP isMotherRecord : Nat) : Int) = 1 + 1 := by
  refine ⟨by decide, ?_⟩
  refine (CheckOverlap_mother_records_bound lineKernel 2 0 false 1 (lineMother [protruding])
    protruding ⟨[], 0⟩ (by decide)).2 (by decide) ?_
  intro i hi
  have hi2 : i < 2 := hi
  unfold motherOverlap insideNoSister
  interval_cases i <;> decide

end GDMLView
